import Mathlib

/-!
# qt_json_viewer: the JSON tree builder and the loader protocol of `FileReader`

A shallow embedding of `src/filereader.cpp`.

* Qt value types are modelled by their documented contents: a `QString` is a
  sequence of characters, a `QJsonArray` a sequence of values, a `QJsonObject`
  a sequence of key/value members, a `QStandardItem` a text with rows of items.
* What Qt computes from data tables, floating point, the disk or the clock
  (Unicode case folding, the rendering of a `double`, the JSON parser, file
  contents, timer readings) is a field of `Platform`; every theorem holds for
  every platform.
* Member functions which mutate `this` take the old `FileReader` and return
  the new one; emitted signals and objects handed to `deleteLater` are
  recorded in the state.
-/

namespace QtJsonViewer

/-! ## Qt value types -/

/-- A `QString`, as its sequence of characters (Qt stores UTF-16 code units;
the model compares and folds whole characters). -/
abbrev QString := String

/-- A `QStringList`. -/
abbrev QStringList := List QString

/-- `QJsonValue`: one constructor per `QJsonValue::Type`. An array holds its
elements in index order, an object its members in the order in which
`QJsonObject` stores and iterates them. -/
inductive QJsonValue where
  | Null
  | Bool (b : Bool)
  | Double (d : Float)
  | String (s : QString)
  | Array (arr : List QJsonValue)
  | Object (obj : List (QString × QJsonValue))
  | Undefined

/-- `QJsonArray`. -/
abbrev QJsonArray := List QJsonValue

/-- `QJsonObject`: the members, in storage order. -/
abbrev QJsonObject := List (QString × QJsonValue)

/-- `QStandardItem`: the text of the item and its child rows; a row is the
list of its column items. -/
inductive QStandardItem where
  | mk (text : QString) (rows : List (List QStandardItem))

/-- `QJsonParseError`: the error code (`NoError` is 0) and the offset. -/
structure QJsonParseError where
  error : Nat
  offset : Nat

/-- `QJsonParseError::NoError`. -/
def QJsonParseError.NoError : Nat := 0

/-- `QJsonDocument`: an object, an array, or a null (empty) document. -/
inductive QJsonDocument where
  | Null
  | Array (arr : QJsonArray)
  | Object (obj : QJsonObject)

/-- What the program obtains from Qt tables and from its surroundings. -/
structure Platform where
  /-- Unicode case folding of one character, as `QString::compare` applies it
  under `Qt::CaseInsensitive`. -/
  foldCase : Char → Nat
  /-- `QString::number(double)`. -/
  number : Float → QString
  /-- `QJsonParseError::errorString()` for an error code. -/
  errorString : Nat → QString
  /-- `QFile::open(QIODevice::ReadOnly)` followed by `readAll()`: the bytes of
  the file at a path, `none` when it cannot be opened. -/
  readFile : QString → Option (List Nat)
  /-- `QJsonDocument::fromJson(data, &e)`. -/
  fromJson : List Nat → QJsonDocument × QJsonParseError
  /-- The reading of the n-th call of `timer.elapsed()` within one load. -/
  elapsed : Nat → Int

/-! ## QString and QStringList operations -/

/-- `QString::compare`: the first difference of the (folded) characters
decides; otherwise the shorter string is the smaller (`ucstricmp` in Qt, and
`ucstrcmp` when `fold` is the identity). -/
def QString.compare (fold : Char → Nat) : List Char → List Char → Int
  | [], [] => 0
  | [], _ :: _ => -1
  | _ :: _, [] => 1
  | a :: as, b :: bs =>
    let diff : Int := (fold a : Int) - (fold b : Int)
    if diff ≠ 0 then diff else QString.compare fold as bs

/-- The comparator of `QStringList::sort(Qt::CaseInsensitive)`:
`s1.compare(s2, Qt::CaseInsensitive) < 0`. -/
def CaseInsensitiveLessThan (pf : Platform) (s1 s2 : QString) : Bool :=
  decide (QString.compare pf.foldCase s1.data s2.data < 0)

/-- `operator<` on `QString`: case-sensitive comparison of the characters. -/
def QString.lessThan (s1 s2 : QString) : Bool :=
  decide (QString.compare Char.toNat s1.data s2.data < 0)

/-- `QStringList::sort(Qt::CaseInsensitive)`, which is `std::sort` with
`CaseInsensitiveLessThan`: b is placed before a only when b is less than a.
(The order `std::sort` gives to equivalent elements is unspecified; here they
keep their order.) -/
def QStringList.sort (pf : Platform) (that : QStringList) : QStringList :=
  that.insertionSort (fun a b => CaseInsensitiveLessThan pf b a = false)

/-- `QString::number(n)` and `arg(n)` for an integer: decimal digits. -/
def QString.number (n : Nat) : QString := Nat.repr n

/-- The number which a string of decimal digits denotes (used to state that
`QString.number` writes decimal digits). -/
def decimalValue (s : List Char) : Nat :=
  s.foldl (fun acc c => 10 * acc + (c.toNat - 48)) 0

/-! ## QJsonObject, QJsonArray, QJsonDocument -/

/-- `QJsonObject::keys()`. -/
def QJsonObject.keys (obj : QJsonObject) : QStringList := obj.map Prod.fst

/-- `QJsonObject::value(key)`: `Undefined` when the key is absent. -/
def QJsonObject.value : QJsonObject → QString → QJsonValue
  | [], _ => QJsonValue.Undefined
  | (k, v) :: rest, key => if k = key then v else QJsonObject.value rest key

/-- `QJsonObject::size()`. -/
def QJsonObject.size (obj : QJsonObject) : Nat := obj.length

/-- `QJsonObject::insert(key, value)`: Qt keeps the members in ascending key
order, and an existing key has its value replaced. -/
def QJsonObject.insert : QJsonObject → QString → QJsonValue → QJsonObject
  | [], key, value => [(key, value)]
  | (k, v) :: rest, key, value =>
    if QString.lessThan key k then (key, value) :: (k, v) :: rest
    else if QString.lessThan k key then (k, v) :: QJsonObject.insert rest key value
    else (key, value) :: rest

/-- The `QJsonObject` holding the members of an object of a JSON text, given
in the order of the text: each member is inserted in turn (the parser sorts
the members by key and keeps the last of equal keys). -/
def QJsonObject.fromMembers (members : List (QString × QJsonValue)) : QJsonObject :=
  members.foldl (fun obj m => QJsonObject.insert obj m.1 m.2) []

/-- `QJsonArray::size()`. -/
def QJsonArray.size (arr : QJsonArray) : Nat := arr.length

/-- `QJsonArray::at(i)`: `Undefined` when i is out of range. -/
def QJsonArray.at (arr : QJsonArray) (i : Nat) : QJsonValue :=
  arr.getD i QJsonValue.Undefined

/-- `QJsonDocument::isObject()`. -/
def QJsonDocument.isObject : QJsonDocument → Bool
  | .Object _ => true
  | _ => false

/-- `QJsonDocument::isArray()`. -/
def QJsonDocument.isArray : QJsonDocument → Bool
  | .Array _ => true
  | _ => false

/-- `QJsonDocument::object()`: an empty object when the document is none. -/
def QJsonDocument.object : QJsonDocument → QJsonObject
  | .Object obj => obj
  | _ => []

/-- `QJsonDocument::array()`: an empty array when the document is none. -/
def QJsonDocument.array : QJsonDocument → QJsonArray
  | .Array arr => arr
  | _ => []

/-! ## QStandardItem -/

/-- `QStandardItem::text()`. -/
def QStandardItem.text : QStandardItem → QString
  | .mk t _ => t

/-- The child rows of an item. -/
def QStandardItem.rows : QStandardItem → List (List QStandardItem)
  | .mk _ r => r

/-- `QStandardItem::rowCount()`. -/
def QStandardItem.rowCount (item : QStandardItem) : Nat := item.rows.length

/-- `QStandardItem::appendRow(items)`. -/
def QStandardItem.appendRow (parent : QStandardItem) (items : List QStandardItem) :
    QStandardItem :=
  QStandardItem.mk parent.text (parent.rows ++ [items])

/-! ## The tree builder (`filereader.cpp`, lines 213-295) -/

/-- `FileReader::getDebugValueFromType`. -/
def getDebugValueFromType (pf : Platform) (value : QJsonValue) : QString :=
  match value with
  | .Null => "null"
  | .Bool b => if b then "True" else "False"
  | .Double d => pf.number d
  | .String s => s
  | .Array arr => "[ ] (" ++ QString.number (QJsonArray.size arr) ++ ")"
  | .Object obj => "\x7b \x7d (" ++ QString.number (QJsonObject.size obj) ++ ")"
  | .Undefined => "<undefined>"

/-- `FileReader::addJsonToParent`. The row `{keyItem, valueItem}` is appended
to `parent`, and the recursive calls append the rows of the members (or of
the elements) to `keyItem`; the result is `parent` after the call. The loop
index, an `int` in the source, is a natural number. -/
def addJsonToParent (pf : Platform) (parent : QStandardItem) (key : QString)
    (value : QJsonValue) (sortObjectKeys : Bool) : QStandardItem :=
  let keyItem := QStandardItem.mk key []
  let valueItem := QStandardItem.mk (getDebugValueFromType pf value) []
  let keyItem :=
    match value with
    | .Object obj =>
      let keys := QJsonObject.keys obj
      let keys := if sortObjectKeys then QStringList.sort pf keys else keys
      keys.foldl
        (fun item k => addJsonToParent pf item k (QJsonObject.value obj k) sortObjectKeys)
        keyItem
    | .Array arr =>
      (List.range (QJsonArray.size arr)).foldl
        (fun item i =>
          addJsonToParent pf item ("[" ++ QString.number i ++ "]") (QJsonArray.at arr i)
            sortObjectKeys)
        keyItem
    | _ => keyItem
  parent.appendRow [keyItem, valueItem]
termination_by sizeOf value
decreasing_by
  · have h : ∀ (o : QJsonObject) (q : QString),
        sizeOf (QJsonObject.value o q) < 1 + sizeOf o := by
      intro o q
      induction o with
      | nil => simp [QJsonObject.value]
      | cons p rest ih =>
        obtain ⟨a, b⟩ := p
        simp only [QJsonObject.value]
        split
        · simp; omega
        · simp; omega
    have := h obj k
    simp; omega
  · have h : ∀ (a : QJsonArray) (n : Nat),
        sizeOf (QJsonArray.at a n) < 1 + sizeOf a := by
      intro a
      induction a with
      | nil => intro n; simp [QJsonArray.at]
      | cons p rest ih =>
        intro n
        cases n with
        | zero => simp [QJsonArray.at]; omega
        | succ j =>
          have := ih j
          simp [QJsonArray.at] at this ⊢; omega
    have := h arr i
    simp; omega

/-- `QStandardItemModel`: whether it has a `QObject` parent, the horizontal
header labels and the invisible root item. -/
structure QStandardItemModel where
  hasParent : Bool
  horizontalHeaderLabels : List QString
  invisibleRootItem : QStandardItem

/-- `QObject::setParent` with a parent that is not null. -/
def QStandardItemModel.setParent (model : QStandardItemModel) : QStandardItemModel :=
  { model with hasParent := true }

/-- `FileReader::buildJsonTreeModel`. -/
def buildJsonTreeModel (pf : Platform) (doc : QJsonDocument) (parent : Bool)
    (sortObjectKeys : Bool) : QStandardItemModel :=
  let root := QStandardItem.mk "" []
  let root :=
    if doc.isObject then
      addJsonToParent pf root "$" (QJsonValue.Object doc.object) sortObjectKeys
    else if doc.isArray then
      addJsonToParent pf root "$" (QJsonValue.Array doc.array) sortObjectKeys
    else root
  { hasParent := parent, horizontalHeaderLabels := ["Key", "Value"], invisibleRootItem := root }

/-- The row which `addJsonToParent` appends for a key and a value: the row it
leaves in a parent that had none. -/
def rowFor (pf : Platform) (key : QString) (value : QJsonValue) (sortObjectKeys : Bool) :
    List QStandardItem :=
  (addJsonToParent pf (QStandardItem.mk "" []) key value sortObjectKeys).rows.headD []

/-- The label of a row: the text of its key item (column 0). -/
def rowLabel (row : List QStandardItem) : QString :=
  (row.headD (QStandardItem.mk "" [])).text

/-- The display value of a row: the text of its value item (column 1). -/
def rowValue (row : List QStandardItem) : QString :=
  (row.getD 1 (QStandardItem.mk "" [])).text

/-- The children of a row: the rows of its key item (column 0). -/
def rowChildren (row : List QStandardItem) : List (List QStandardItem) :=
  (row.headD (QStandardItem.mk "" [])).rows

mutual
/-- All rows below an item, at every depth. -/
def QStandardItem.allRows : QStandardItem → List (List QStandardItem)
  | .mk _ rows => allRowsOfRows rows
/-- All rows among the given rows and below them, at every depth. -/
def allRowsOfRows : List (List QStandardItem) → List (List QStandardItem)
  | [] => []
  | row :: rest => (row :: allRowsOfRow row) ++ allRowsOfRows rest
/-- All rows below the items of a row, at every depth. -/
def allRowsOfRow : List QStandardItem → List (List QStandardItem)
  | [] => []
  | item :: rest => item.allRows ++ allRowsOfRow rest
end

/-- The value is an object with at least one key or an array with at least
one element. -/
def isNonEmptyContainer : QJsonValue → Bool
  | .Object obj => decide (0 < QJsonObject.size obj)
  | .Array arr => decide (0 < QJsonArray.size arr)
  | _ => false

/-- `QJsonValue::isObject() || QJsonValue::isArray()`. -/
def isContainer : QJsonValue → Bool
  | .Object _ => true
  | .Array _ => true
  | _ => false

/-- The first value occurs in the second: it is that value, or occurs in an
element of that array, or occurs in the value of a member of that object. -/
inductive OccursIn : QJsonValue → QJsonValue → Prop where
  | self (v : QJsonValue) : OccursIn v v
  | element (w v : QJsonValue) (arr : QJsonArray) :
      v ∈ arr → OccursIn w v → OccursIn w (QJsonValue.Array arr)
  | member (w v : QJsonValue) (k : QString) (obj : QJsonObject) :
      (k, v) ∈ obj → OccursIn w v → OccursIn w (QJsonValue.Object obj)

/-! ## The loader (`filereader.cpp`, lines 17-211) -/

/-- `QUrl`, by its scheme and its path. -/
structure QUrl where
  scheme : QString
  path : QString

/-- `QUrl::isLocalFile()`: the scheme is `file`. -/
def QUrl.isLocalFile (url : QUrl) : Bool := decide (url.scheme = "file")

/-- `QUrl::toLocalFile()`. -/
def QUrl.toLocalFile (url : QUrl) : QString := if url.isLocalFile then url.path else ""

/-- `struct JsonLoadResult`; a null `model` is `none`. -/
structure JsonLoadResult where
  ok : Bool
  error : QString
  model : Option QStandardItemModel
  openMs : Int
  readMs : Int
  parseMs : Int
  buildMs : Int
  totalMs : Int

/-- The signals of `FileReader`. -/
inductive Signal where
  | jsonModelChanged
  | loadingChanged
  | statusTextChanged
  deriving DecidableEq

/-- The members of `FileReader`, with the signals emitted so far and the
models handed to `deleteLater` so far. -/
structure FileReader where
  m_jsonModel : Option QStandardItemModel
  m_loading : Bool
  m_statusText : QString
  m_loadInProgress : Bool
  emitted : List Signal
  deleted : List QStandardItemModel

/-- What the worker lambda of `readJsonFileAsync` captures besides `self`. -/
structure WorkerTask where
  path : QString
  sortKeys : Bool

/-- `FileReader::setLoading`. -/
def FileReader.setLoading (this : FileReader) (v : Bool) : FileReader :=
  if this.m_loading = v then this
  else { this with m_loading := v, emitted := this.emitted ++ [Signal.loadingChanged] }

/-- `FileReader::setStatusText`. -/
def FileReader.setStatusText (this : FileReader) (t : QString) : FileReader :=
  if this.m_statusText = t then this
  else { this with m_statusText := t, emitted := this.emitted ++ [Signal.statusTextChanged] }

/-- The statements `if (m_jsonModel) m_jsonModel->deleteLater();`. -/
def FileReader.deleteModelLater (this : FileReader) : FileReader :=
  match this.m_jsonModel with
  | some old => { this with deleted := this.deleted ++ [old] }
  | none => this

/-- `QString("Done in %1 ms").arg(t)`. -/
def doneStatus (t : Int) : QString := "Done in " ++ toString t ++ " ms"

/-- `FileReader::readJsonFile`. -/
def FileReader.readJsonFile (pf : Platform) (this : FileReader) (url : QUrl) : FileReader :=
  if !url.isLocalFile then this
  else
    let this := this.setLoading true
    let this := this.setStatusText "Loading (sync) ..."
    match pf.readFile url.toLocalFile with
    | none => (this.setStatusText "Failed to open file").setLoading false
    | some data =>
      let (doc, e) := pf.fromJson data
      if e.error ≠ QJsonParseError.NoError then
        (this.setStatusText "JSON parse error").setLoading false
      else
        let newModel := buildJsonTreeModel pf doc true true
        let this := this.setStatusText (doneStatus (pf.elapsed 4))
        let this := this.setLoading false
        let this := this.deleteModelLater
        let this := { this with m_jsonModel := some newModel }
        { this with emitted := this.emitted ++ [Signal.jsonModelChanged] }

/-- The worker lambda passed to `QtConcurrent::run` in `readJsonFileAsync`;
`self` tells whether the `QPointer` to the loader is still set when the
worker tests it. -/
def worker (pf : Platform) (task : WorkerTask) (self : Bool) : JsonLoadResult :=
  let out : JsonLoadResult :=
    { ok := false, error := "", model := none,
      openMs := 0, readMs := 0, parseMs := 0, buildMs := 0, totalMs := 0 }
  match pf.readFile task.path with
  | none => { out with error := "Failed to open file" }
  | some data =>
    let out := { out with openMs := pf.elapsed 0 }
    let out := { out with readMs := pf.elapsed 1 - out.openMs }
    let (doc, e) := pf.fromJson data
    let out := { out with parseMs := pf.elapsed 2 - out.openMs - out.readMs }
    if e.error ≠ QJsonParseError.NoError then
      { out with error := "JSON parse error: " ++ pf.errorString e.error }
    else if !self then
      { out with error := "Loader object destroyed" }
    else
      let model := buildJsonTreeModel pf doc false task.sortKeys
      let out :=
        { out with buildMs := pf.elapsed 3 - out.openMs - out.readMs - out.parseMs }
      let out := { out with totalMs := pf.elapsed 4 }
      { out with model := some model, ok := true }

/-- The status text of a finished asynchronous load: the five `arg` calls on
`"Async done: open %1ms, read %2ms, parse %3ms, build %4ms, total %5ms"`. -/
def asyncDoneStatus (r : JsonLoadResult) : QString :=
  "Async done: open " ++ toString r.openMs ++ "ms, read " ++ toString r.readMs ++
    "ms, parse " ++ toString r.parseMs ++ "ms, build " ++ toString r.buildMs ++
    "ms, total " ++ toString r.totalMs ++ "ms"

/-- The handler connected to `QFutureWatcher::finished` in
`readJsonFileAsync`. The loader is `none` once it has been destroyed: the
handler then touches no member. -/
def finished (self : Option FileReader) (r : JsonLoadResult) : Option FileReader :=
  match self with
  | none => none
  | some this =>
    if !r.ok then
      let this := this.setStatusText ("Async load failed: " ++ r.error)
      let this := this.setLoading false
      some { this with m_loadInProgress := false }
    else
      let this := this.setStatusText (asyncDoneStatus r)
      let this := this.deleteModelLater
      let this := { this with m_jsonModel := r.model.map QStandardItemModel.setParent }
      let this := { this with emitted := this.emitted ++ [Signal.jsonModelChanged] }
      let this := this.setLoading false
      some { this with m_loadInProgress := false }

/-- `FileReader::readJsonFileAsync`: the loader after the call, and the task
it handed to the thread pool, if any. -/
def FileReader.readJsonFileAsync (this : FileReader) (url : QUrl) :
    FileReader × Option WorkerTask :=
  if !url.isLocalFile then (this, none)
  else if this.m_loadInProgress then
    (this.setStatusText "Load already in progress...", none)
  else
    let this := { this with m_loadInProgress := true }
    let this := this.setLoading true
    let this := this.setStatusText "Loading (async): starting..."
    (this, some { path := url.toLocalFile, sortKeys := true })

/-- An asynchronous load followed to its end on a loader that stays alive:
the call, then the worker, then the `finished` handler. Without a dispatched
task nothing follows the call. -/
def FileReader.readJsonFileAsyncToEnd (pf : Platform) (this : FileReader) (url : QUrl) :
    Option FileReader :=
  match this.readJsonFileAsync url with
  | (this, some task) => finished (some this) (worker pf task true)
  | (this, none) => some this

/-! ## Concrete inputs for the examples -/

/-- A platform for the examples: ASCII case folding, one readable file
`/doc.json` whose bytes parse without error to an empty object, one readable
file `/bad.json` whose bytes (a single byte) do not parse. -/
def examplePlatform : Platform :=
  { foldCase := fun c => if 65 ≤ c.toNat ∧ c.toNat ≤ 90 then c.toNat + 32 else c.toNat
    number := fun d => toString d
    errorString := fun _ => "illegal value"
    readFile := fun path =>
      if path = "/doc.json" then some [] else if path = "/bad.json" then some [123] else none
    fromJson := fun data =>
      if data = [] then (QJsonDocument.Object [], { error := 0, offset := 0 })
      else (QJsonDocument.Null, { error := 5, offset := 1 })
    elapsed := fun n => n }

/-- The members of the JSON text `{"b":1,"A":2,"c":3}`, in the order of the
text. -/
def exampleMembers : List (QString × QJsonValue) :=
  [("b", QJsonValue.Double 1), ("A", QJsonValue.Double 2), ("c", QJsonValue.Double 3)]

/-- The array of the JSON text `[10,20,30]`. -/
def exampleArray : QJsonArray :=
  [QJsonValue.Double 10, QJsonValue.Double 20, QJsonValue.Double 30]

/-- A loader in the middle of an asynchronous load. -/
def loadingReader : FileReader :=
  { m_jsonModel := none, m_loading := true, m_statusText := "Loading (async): starting...",
    m_loadInProgress := true, emitted := [], deleted := [] }

/-- A loader at rest which shows the tree of an earlier load. -/
def idleReader : FileReader :=
  { m_jsonModel := some (buildJsonTreeModel examplePlatform (QJsonDocument.Array []) true true),
    m_loading := false, m_statusText := "Done in 3 ms",
    m_loadInProgress := false, emitted := [], deleted := [] }

/-- A result of the worker that reports a failure. -/
def failedResult : JsonLoadResult :=
  { ok := false, error := "Failed to open file", model := none,
    openMs := 0, readMs := 0, parseMs := 0, buildMs := 0, totalMs := 0 }

/-! ## The tree builder: what one call appends -/

theorem addJsonToParent_appendRow (pf : Platform) (parent : QStandardItem) (key : QString)
    (value : QJsonValue) (sortObjectKeys : Bool) :
    addJsonToParent pf parent key value sortObjectKeys
      = parent.appendRow (rowFor pf key value sortObjectKeys) := by
  unfold rowFor
  cases value <;>
    simp [addJsonToParent, QStandardItem.appendRow, QStandardItem.rows, QStandardItem.text]

theorem foldl_addJsonToParent (pf : Platform) (sortObjectKeys : Bool) {α : Type}
    (label : α → QString) (val : α → QJsonValue) (xs : List α) (item : QStandardItem) :
    xs.foldl (fun it x => addJsonToParent pf it (label x) (val x) sortObjectKeys) item
      = QStandardItem.mk item.text
          (item.rows ++ xs.map (fun x => rowFor pf (label x) (val x) sortObjectKeys)) := by
  induction xs generalizing item with
  | nil => cases item; simp [QStandardItem.text, QStandardItem.rows]
  | cons x rest ih =>
    simp only [List.foldl_cons, List.map_cons]
    rw [ih, addJsonToParent_appendRow]
    simp [QStandardItem.appendRow, QStandardItem.text, QStandardItem.rows]

theorem rowFor_object (pf : Platform) (key : QString) (obj : QJsonObject)
    (sortObjectKeys : Bool) :
    rowFor pf key (QJsonValue.Object obj) sortObjectKeys
      = [QStandardItem.mk key
          ((if sortObjectKeys then QStringList.sort pf (QJsonObject.keys obj)
              else QJsonObject.keys obj).map
            (fun k => rowFor pf k (QJsonObject.value obj k) sortObjectKeys)),
         QStandardItem.mk (getDebugValueFromType pf (QJsonValue.Object obj)) []] := by
  unfold rowFor
  rw [addJsonToParent]
  simp only [QStandardItem.appendRow, QStandardItem.rows, QStandardItem.text,
    List.nil_append, List.headD_cons]
  rw [foldl_addJsonToParent pf sortObjectKeys (fun k => k) (fun k => QJsonObject.value obj k)]
  simp [QStandardItem.text, QStandardItem.rows, rowFor]

theorem rowFor_array (pf : Platform) (key : QString) (arr : QJsonArray)
    (sortObjectKeys : Bool) :
    rowFor pf key (QJsonValue.Array arr) sortObjectKeys
      = [QStandardItem.mk key
          ((List.range (QJsonArray.size arr)).map
            (fun i => rowFor pf ("[" ++ QString.number i ++ "]") (QJsonArray.at arr i)
              sortObjectKeys)),
         QStandardItem.mk (getDebugValueFromType pf (QJsonValue.Array arr)) []] := by
  unfold rowFor
  rw [addJsonToParent]
  simp only [QStandardItem.appendRow, QStandardItem.rows, QStandardItem.text,
    List.nil_append, List.headD_cons]
  rw [foldl_addJsonToParent pf sortObjectKeys (fun i => "[" ++ QString.number i ++ "]")
    (fun i => QJsonArray.at arr i)]
  simp [QStandardItem.text, QStandardItem.rows, rowFor]

theorem rowFor_scalar (pf : Platform) (key : QString) (value : QJsonValue)
    (sortObjectKeys : Bool) (h : isContainer value = false) :
    rowFor pf key value sortObjectKeys
      = [QStandardItem.mk key [], QStandardItem.mk (getDebugValueFromType pf value) []] := by
  unfold rowFor
  cases value <;> simp [isContainer] at h <;>
    simp [addJsonToParent, QStandardItem.appendRow, QStandardItem.rows, QStandardItem.text]

/-! ## Comparison and sorting of QStrings -/

theorem QString.compare_swap (fold : Char → Nat) (a b : List Char) :
    QString.compare fold b a = - QString.compare fold a b := by
  induction a generalizing b with
  | nil => cases b <;> simp [QString.compare]
  | cons x xs ih =>
    cases b with
    | nil => simp [QString.compare]
    | cons y ys =>
      simp only [QString.compare]
      by_cases h : (fold x : Int) - (fold y : Int) = 0
      · have h2 : (fold y : Int) - (fold x : Int) = 0 := by omega
        simp [h, h2, ih]
      · have h2 : ¬ ((fold y : Int) - (fold x : Int) = 0) := by omega
        simp [h, h2]

theorem QString.compare_trans (fold : Char → Nat) (a b c : List Char)
    (hab : QString.compare fold a b ≤ 0) (hbc : QString.compare fold b c ≤ 0) :
    QString.compare fold a c ≤ 0 := by
  induction a generalizing b c with
  | nil => cases c <;> simp [QString.compare]
  | cons x xs ih =>
    cases b with
    | nil => simp [QString.compare] at hab
    | cons y ys =>
      cases c with
      | nil => simp [QString.compare] at hbc
      | cons z zs =>
        simp only [QString.compare] at hab hbc ⊢
        by_cases h1 : (fold x : Int) - (fold y : Int) = 0
        · by_cases h2 : (fold y : Int) - (fold z : Int) = 0
          · have h3 : (fold x : Int) - (fold z : Int) = 0 := by omega
            simp only [h1, h2, h3, ne_eq, not_true_eq_false, if_false] at hab hbc ⊢
            exact ih ys zs hab hbc
          · have h3 : ¬ ((fold x : Int) - (fold z : Int) = 0) := by omega
            simp only [h2, h3, ne_eq, not_false_eq_true, if_true] at hbc ⊢
            omega
        · simp only [h1, ne_eq, not_false_eq_true, if_true] at hab
          by_cases h2 : (fold y : Int) - (fold z : Int) = 0
          · have h3 : ¬ ((fold x : Int) - (fold z : Int) = 0) := by omega
            simp only [h3, ne_eq, not_false_eq_true, if_true]
            omega
          · simp only [h2, ne_eq, not_false_eq_true, if_true] at hbc
            have h3 : ¬ ((fold x : Int) - (fold z : Int) = 0) := by omega
            simp only [h3, ne_eq, not_false_eq_true, if_true]
            omega

theorem CaseInsensitiveLessThan_eq_false (pf : Platform) (a b : QString) :
    CaseInsensitiveLessThan pf b a = false ↔ QString.compare pf.foldCase a.data b.data ≤ 0 := by
  unfold CaseInsensitiveLessThan
  rw [QString.compare_swap pf.foldCase a.data b.data]
  simp

theorem QStringList.sort_perm (pf : Platform) (keys : QStringList) :
    (QStringList.sort pf keys).Perm keys :=
  List.perm_insertionSort _ keys

theorem QStringList.sort_sorted (pf : Platform) (keys : QStringList) :
    (QStringList.sort pf keys).Pairwise
      (fun a b => QString.compare pf.foldCase a.data b.data ≤ 0) := by
  have htotal : IsTotal QString (fun a b => CaseInsensitiveLessThan pf b a = false) := by
    constructor
    intro a b
    rw [CaseInsensitiveLessThan_eq_false, CaseInsensitiveLessThan_eq_false,
      QString.compare_swap pf.foldCase a.data b.data]
    omega
  have htrans : IsTrans QString (fun a b => CaseInsensitiveLessThan pf b a = false) := by
    constructor
    intro a b c hab hbc
    rw [CaseInsensitiveLessThan_eq_false] at hab hbc ⊢
    exact QString.compare_trans pf.foldCase _ _ _ hab hbc
  have h := List.sorted_insertionSort (fun a b => CaseInsensitiveLessThan pf b a = false) keys
  unfold List.Sorted at h
  unfold QStringList.sort
  exact h.imp (fun {a b} hab => (CaseInsensitiveLessThan_eq_false pf a b).1 hab)

theorem rowLabel_rowFor (pf : Platform) (key : QString) (value : QJsonValue)
    (sortObjectKeys : Bool) : rowLabel (rowFor pf key value sortObjectKeys) = key := by
  cases value
  case Object obj => simp [rowFor_object, rowLabel, QStandardItem.text]
  case Array arr => simp [rowFor_array, rowLabel, QStandardItem.text]
  all_goals simp [rowFor_scalar, isContainer, rowLabel, QStandardItem.text]

theorem rowValue_rowFor (pf : Platform) (key : QString) (value : QJsonValue)
    (sortObjectKeys : Bool) :
    rowValue (rowFor pf key value sortObjectKeys) = getDebugValueFromType pf value := by
  cases value
  case Object obj => simp [rowFor_object, rowValue, QStandardItem.text]
  case Array arr => simp [rowFor_array, rowValue, QStandardItem.text]
  all_goals simp [rowFor_scalar, isContainer, rowValue, QStandardItem.text]

/-! ## Objects with sorted keys (C1) -/

/-- C1. For every JSON object, the node built with sortObjectKeys = true has
children whose labels, in order, are a permutation of the keys of the object
(each key once, none missing) in non-decreasing order under the
case-insensitive comparison, and each child is the row built for its label k
and the value stored under k. -/
theorem object_children_sorted (pf : Platform) (key : QString) (obj : QJsonObject) :
    ((rowChildren (rowFor pf key (QJsonValue.Object obj) true)).map rowLabel).Perm
        (QJsonObject.keys obj)
    ∧ ((rowChildren (rowFor pf key (QJsonValue.Object obj) true)).map rowLabel).Pairwise
        (fun a b => QString.compare pf.foldCase a.data b.data ≤ 0)
    ∧ ∀ child ∈ rowChildren (rowFor pf key (QJsonValue.Object obj) true),
        child = rowFor pf (rowLabel child) (QJsonObject.value obj (rowLabel child)) true := by
  have hlabels : (rowChildren (rowFor pf key (QJsonValue.Object obj) true)).map rowLabel
      = QStringList.sort pf (QJsonObject.keys obj) := by
    simp [rowFor_object, rowChildren, QStandardItem.rows, List.map_map, Function.comp_def,
      rowLabel_rowFor]
  refine ⟨?_, ?_, ?_⟩
  · rw [hlabels]; exact QStringList.sort_perm pf _
  · rw [hlabels]; exact QStringList.sort_sorted pf _
  · intro child hchild
    simp only [rowFor_object, rowChildren, QStandardItem.rows, if_true, List.headD_cons,
      List.mem_map] at hchild
    obtain ⟨k, _, rfl⟩ := hchild
    rw [rowLabel_rowFor]

/-- C1 at the object of `{"b":1,"A":2,"c":3}`: the labels are a permutation
of the keys, and the child built for "A" and the value 2 is the row built for
its label and the value stored under it. -/
theorem object_children_sorted_witness :
    ((rowChildren (rowFor examplePlatform "$"
        (QJsonValue.Object (QJsonObject.fromMembers exampleMembers)) true)).map rowLabel).Perm
        (QJsonObject.keys (QJsonObject.fromMembers exampleMembers))
    ∧ rowFor examplePlatform "A" (QJsonValue.Double 2) true
        = rowFor examplePlatform (rowLabel (rowFor examplePlatform "A" (QJsonValue.Double 2) true))
            (QJsonObject.value (QJsonObject.fromMembers exampleMembers)
              (rowLabel (rowFor examplePlatform "A" (QJsonValue.Double 2) true))) true :=
  ⟨(object_children_sorted examplePlatform "$" (QJsonObject.fromMembers exampleMembers)).1,
   (object_children_sorted examplePlatform "$" (QJsonObject.fromMembers exampleMembers)).2.2
      (rowFor examplePlatform "A" (QJsonValue.Double 2) true)
      (by
        simp only [rowFor_object, rowChildren, QStandardItem.rows, if_true, List.headD_cons,
          List.mem_map]
        exact ⟨"A", by decide, rfl⟩)⟩

/-- The example of C1: the object of `{"b":1,"A":2,"c":3}` built with
sortObjectKeys = true has the child labels A, b, c. -/
theorem object_children_sorted_example :
    (rowChildren (rowFor examplePlatform "$"
        (QJsonValue.Object (QJsonObject.fromMembers exampleMembers)) true)).map rowLabel
      = ["A", "b", "c"] := by
  simp only [rowFor_object, rowChildren, QStandardItem.rows, if_true, List.headD_cons,
    List.map_map, Function.comp_def, rowLabel_rowFor, List.map_id_fun, id]
  decide

/-! ## Decimal rendering of an index -/

theorem digitChar_decimal (m : Nat) (h : m < 10) :
    (Nat.digitChar m).toNat - 48 = m ∧ (Nat.digitChar m).isDigit = true
      ∧ (Nat.digitChar m = '0' → m = 0) := by
  interval_cases m <;> decide

theorem decimalValue_append_singleton (l : List Char) (c : Char) :
    decimalValue (l ++ [c]) = 10 * decimalValue l + (c.toNat - 48) := by
  simp [decimalValue, List.foldl_append]

theorem toDigitsCore_decimal (fuel : Nat) :
    ∀ (n : Nat) (ds : List Char), n < fuel →
      ∃ l : List Char, Nat.toDigitsCore 10 fuel n ds = l ++ ds ∧ decimalValue l = n
        ∧ (∀ c ∈ l, c.isDigit = true) ∧ l ≠ [] ∧ (l.head? = some '0' → n = 0) := by
  induction fuel with
  | zero => intro n ds h; omega
  | succ fuel ih =>
    intro n ds h
    obtain ⟨hval, hdig, hzero⟩ := digitChar_decimal (n % 10) (Nat.mod_lt _ (by decide))
    by_cases hq : n / 10 = 0
    · refine ⟨[Nat.digitChar (n % 10)], ?_, ?_, ?_, ?_, ?_⟩
      · simp [Nat.toDigitsCore, hq]
      · simp only [decimalValue, List.foldl_cons, List.foldl_nil]
        omega
      · intro c hc
        simp only [List.mem_singleton] at hc
        rw [hc]; exact hdig
      · simp
      · intro hhead
        simp only [List.head?_cons, Option.some.injEq] at hhead
        have := hzero hhead
        omega
    · have hlt : n / 10 < fuel := by omega
      obtain ⟨l, hl, hlv, hld, hlne, hlz⟩ := ih (n / 10) (Nat.digitChar (n % 10) :: ds) hlt
      refine ⟨l ++ [Nat.digitChar (n % 10)], ?_, ?_, ?_, ?_, ?_⟩
      · simp [Nat.toDigitsCore, hq, hl]
      · rw [decimalValue_append_singleton, hlv]
        omega
      · intro c hc
        simp only [List.mem_append, List.mem_singleton] at hc
        rcases hc with hc | hc
        · exact hld c hc
        · rw [hc]; exact hdig
      · simp
      · intro hhead
        cases l with
        | nil => exact absurd rfl hlne
        | cons a rest =>
          simp only [List.cons_append, List.head?_cons, Option.some.injEq] at hhead
          have := hlz (by simp [hhead])
          omega

theorem QString.number_decimal (n : Nat) :
    decimalValue (QString.number n).data = n
      ∧ (∀ c ∈ (QString.number n).data, c.isDigit = true)
      ∧ ((QString.number n).data.head? = some '0' → n = 0) := by
  obtain ⟨l, hl, hv, hd, _, hz⟩ := toDigitsCore_decimal (n + 1) n [] (by omega)
  have hdata : (QString.number n).data = l := by
    simp [QString.number, Nat.repr, Nat.toDigits, hl, List.asString]
  rw [hdata]
  exact ⟨hv, hd, hz⟩

/-! ## Arrays (C4) -/

/-- C4. For every JSON array and either value of sortObjectKeys, the built
node has as many children as the array has elements, and for every i below
that number the i-th child is the row built for the label "[i]" and the i-th
element, its label is "[i]", and the digits between the brackets are the
decimal digits of i: they denote i and start with 0 only when i is 0. -/
theorem array_children (pf : Platform) (key : QString) (arr : QJsonArray)
    (sortObjectKeys : Bool) :
    (rowChildren (rowFor pf key (QJsonValue.Array arr) sortObjectKeys)).length = arr.length
    ∧ ∀ (i : Nat) (h : i < arr.length),
        (rowChildren (rowFor pf key (QJsonValue.Array arr) sortObjectKeys))[i]?
            = some (rowFor pf ("[" ++ QString.number i ++ "]") (arr.get ⟨i, h⟩) sortObjectKeys)
        ∧ ((rowChildren (rowFor pf key (QJsonValue.Array arr) sortObjectKeys))[i]?).map rowLabel
            = some ("[" ++ QString.number i ++ "]")
        ∧ decimalValue (QString.number i).data = i
        ∧ (∀ c ∈ (QString.number i).data, c.isDigit = true)
        ∧ ((QString.number i).data.head? = some '0' → i = 0) := by
  have hchildren : rowChildren (rowFor pf key (QJsonValue.Array arr) sortObjectKeys)
      = (List.range arr.length).map
          (fun i => rowFor pf ("[" ++ QString.number i ++ "]") (QJsonArray.at arr i)
            sortObjectKeys) := by
    simp [rowFor_array, rowChildren, QStandardItem.rows, QJsonArray.size]
  refine ⟨by simp [hchildren], ?_⟩
  intro i h
  have hat : QJsonArray.at arr i = arr.get ⟨i, h⟩ := by
    simp [QJsonArray.at, List.getD_eq_getElem?_getD, List.getElem?_eq_getElem h]
  have hi : (rowChildren (rowFor pf key (QJsonValue.Array arr) sortObjectKeys))[i]?
      = some (rowFor pf ("[" ++ QString.number i ++ "]") (arr.get ⟨i, h⟩) sortObjectKeys) := by
    rw [hchildren, List.getElem?_map, List.getElem?_range h, Option.map_some', hat]
  refine ⟨hi, ?_, QString.number_decimal i⟩
  rw [hi, Option.map_some', rowLabel_rowFor]

/-- The example of C4, `[10,20,30]`, through the theorem above: three
children, and the child at index 2 is labelled "[2]". -/
theorem array_children_witness :
    (rowChildren (rowFor examplePlatform "$" (QJsonValue.Array exampleArray) true)).length = 3
    ∧ ((rowChildren (rowFor examplePlatform "$" (QJsonValue.Array exampleArray) true))[2]?).map
        rowLabel = some "[2]" :=
  ⟨(array_children examplePlatform "$" exampleArray true).1,
   ((array_children examplePlatform "$" exampleArray true).2 2 (by decide)).2.1⟩

/-- The example of C4 in full: `[10,20,30]` gives the child labels "[0]",
"[1]", "[2]", in that order. -/
theorem array_children_example :
    (rowChildren (rowFor examplePlatform "$" (QJsonValue.Array exampleArray) true)).map rowLabel
      = ["[0]", "[1]", "[2]"] := by
  simp only [rowFor_array, rowChildren, QStandardItem.rows, List.headD_cons,
    List.map_map, Function.comp_def, rowLabel_rowFor]
  decide

/-! ## Display values (C5) -/

/-- C5. The display value of every JSON value that is not a number is the one
of the render table: "null" for Null, "True" or "False" for a Bool, the string
itself for a String, "[ ] (n)" for an Array with n elements and "{ } (n)" for
an Object with n keys, n in decimal; only the number of direct elements or
keys enters, not their contents. -/
theorem getDebugValueFromType_table (pf : Platform) :
    getDebugValueFromType pf QJsonValue.Null = "null"
    ∧ getDebugValueFromType pf (QJsonValue.Bool true) = "True"
    ∧ getDebugValueFromType pf (QJsonValue.Bool false) = "False"
    ∧ (∀ s : QString, getDebugValueFromType pf (QJsonValue.String s) = s)
    ∧ (∀ arr : QJsonArray,
        getDebugValueFromType pf (QJsonValue.Array arr)
          = "[ ] (" ++ QString.number arr.length ++ ")")
    ∧ (∀ obj : QJsonObject,
        getDebugValueFromType pf (QJsonValue.Object obj)
          = "\x7b \x7d (" ++ QString.number (QJsonObject.keys obj).length ++ ")") := by
  refine ⟨rfl, rfl, rfl, fun _ => rfl, fun _ => rfl, fun obj => ?_⟩
  simp [getDebugValueFromType, QJsonObject.size, QJsonObject.keys]

/-- The examples of C5: `{"x":1}` is displayed as "{ } (1)", `[]` as
"[ ] (0)", and an array of two nested arrays as "[ ] (2)". -/
theorem getDebugValueFromType_examples (pf : Platform) :
    getDebugValueFromType pf (QJsonValue.Object [("x", QJsonValue.Double 1)]) = "\x7b \x7d (1)"
    ∧ getDebugValueFromType pf (QJsonValue.Array []) = "[ ] (0)"
    ∧ getDebugValueFromType pf
        (QJsonValue.Array [QJsonValue.Array [QJsonValue.Null, QJsonValue.Null],
          QJsonValue.Array []]) = "[ ] (2)" := by
  refine ⟨?_, ?_, ?_⟩ <;>
    simp only [getDebugValueFromType, QJsonObject.size, QJsonArray.size, List.length_cons,
      List.length_nil] <;> decide

/-! ## Children and containers (C7) -/

theorem QJsonObject.sizeOf_value (obj : QJsonObject) (key : QString) :
    sizeOf (QJsonObject.value obj key) < 1 + sizeOf obj := by
  induction obj with
  | nil => simp [QJsonObject.value]
  | cons p rest ih =>
    obtain ⟨a, b⟩ := p
    simp only [QJsonObject.value]
    split
    · simp; omega
    · simp; omega

theorem QJsonArray.sizeOf_at (arr : QJsonArray) (i : Nat) :
    sizeOf (QJsonArray.at arr i) < 1 + sizeOf arr := by
  induction arr generalizing i with
  | nil => simp [QJsonArray.at]
  | cons p rest ih =>
    cases i with
    | zero => simp [QJsonArray.at]; omega
    | succ j =>
      have := ih j
      simp [QJsonArray.at] at this ⊢; omega

theorem mem_allRowsOfRows (row : List QStandardItem) (rows : List (List QStandardItem)) :
    row ∈ allRowsOfRows rows ↔ ∃ r ∈ rows, row = r ∨ row ∈ allRowsOfRow r := by
  induction rows with
  | nil => simp [allRowsOfRows]
  | cons r rest ih =>
    simp only [allRowsOfRows, List.cons_append, List.mem_cons, List.mem_append, ih,
      exists_eq_or_imp, or_assoc]

theorem allRowsOfRow_pair (keyText valueText : QString) (rows : List (List QStandardItem)) :
    allRowsOfRow [QStandardItem.mk keyText rows, QStandardItem.mk valueText []]
      = allRowsOfRows rows := by
  simp [allRowsOfRow, QStandardItem.allRows, allRowsOfRows]

theorem QJsonArray.at_mem (arr : QJsonArray) (i : Nat) (h : i < QJsonArray.size arr) :
    QJsonArray.at arr i ∈ arr := by
  simp only [QJsonArray.size] at h
  simp [QJsonArray.at, List.getD_eq_getElem?_getD, List.getElem?_eq_getElem h]

theorem QJsonObject.value_mem (obj : QJsonObject) (k : QString)
    (h : k ∈ QJsonObject.keys obj) : (k, QJsonObject.value obj k) ∈ obj := by
  induction obj with
  | nil => simp [QJsonObject.keys] at h
  | cons m rest ih =>
    obtain ⟨k0, v0⟩ := m
    simp only [QJsonObject.value]
    by_cases hk : k0 = k
    · simp [hk]
    · simp only [QJsonObject.keys, List.map_cons, List.mem_cons] at h ih
      have hrest := ih (h.resolve_left (fun e => hk e.symm))
      simp [hk, hrest]

theorem rows_below_rowFor (pf : Platform) (sortObjectKeys : Bool) (n : Nat) :
    ∀ (value : QJsonValue) (key : QString), sizeOf value ≤ n →
      ∀ row ∈ allRowsOfRow (rowFor pf key value sortObjectKeys),
        ∃ (k : QString) (v : QJsonValue),
          OccursIn v value ∧ row = rowFor pf k v sortObjectKeys := by
  induction n with
  | zero =>
    intro value key h
    cases value <;> simp at h
  | succ n ih =>
    intro value key h row hrow
    cases value
    case Array arr =>
      rw [rowFor_array, allRowsOfRow_pair, mem_allRowsOfRows] at hrow
      obtain ⟨r, hr, hrow⟩ := hrow
      simp only [List.mem_map, List.mem_range] at hr
      obtain ⟨i, hi, rfl⟩ := hr
      have hmem := QJsonArray.at_mem arr i hi
      rcases hrow with hrow | hrow
      · exact ⟨_, _, OccursIn.element _ _ _ hmem (OccursIn.self _), hrow⟩
      · have hlt := QJsonArray.sizeOf_at arr i
        simp only [QJsonValue.Array.sizeOf_spec] at h
        obtain ⟨k, v, hv, hrow⟩ := ih (QJsonArray.at arr i) _ (by omega) row hrow
        exact ⟨k, v, OccursIn.element _ _ _ hmem hv, hrow⟩
    case Object obj =>
      rw [rowFor_object, allRowsOfRow_pair, mem_allRowsOfRows] at hrow
      obtain ⟨r, hr, hrow⟩ := hrow
      simp only [List.mem_map] at hr
      obtain ⟨k, hk, rfl⟩ := hr
      have hkeys : k ∈ QJsonObject.keys obj := by
        cases sortObjectKeys
        · simpa using hk
        · exact (QStringList.sort_perm pf _).mem_iff.1 (by simpa using hk)
      have hmem := QJsonObject.value_mem obj k hkeys
      rcases hrow with hrow | hrow
      · exact ⟨_, _, OccursIn.member _ _ _ _ hmem (OccursIn.self _), hrow⟩
      · have hlt := QJsonObject.sizeOf_value obj k
        simp only [QJsonValue.Object.sizeOf_spec] at h
        obtain ⟨k2, v, hv, hrow⟩ := ih (QJsonObject.value obj k) _ (by omega) row hrow
        exact ⟨k2, v, OccursIn.member _ _ _ _ hmem hv, hrow⟩
    all_goals
      simp [rowFor_scalar, isContainer, allRowsOfRow_pair, allRowsOfRows] at hrow

theorem rowChildren_length (pf : Platform) (key : QString) (value : QJsonValue)
    (sortObjectKeys : Bool) :
    (rowChildren (rowFor pf key value sortObjectKeys)).length
      = match value with
        | .Object obj => QJsonObject.size obj
        | .Array arr => QJsonArray.size arr
        | _ => 0 := by
  cases value
  case Object obj =>
    cases sortObjectKeys
    · simp [rowFor_object, rowChildren, QStandardItem.rows, QJsonObject.keys, QJsonObject.size]
    · simp [rowFor_object, rowChildren, QStandardItem.rows, QJsonObject.keys, QJsonObject.size,
        (QStringList.sort_perm pf _).length_eq]
  case Array arr => simp [rowFor_array, rowChildren, QStandardItem.rows]
  all_goals simp [rowFor_scalar, isContainer, rowChildren, QStandardItem.rows]

/-- C7, as stated, fails: the node built for the empty array `[]` has no
child although its value is an Array. -/
theorem children_iff_container_counterexample :
    ¬ (0 < (rowChildren (rowFor examplePlatform "$" (QJsonValue.Array []) true)).length
        ↔ isContainer (QJsonValue.Array []) = true) := by
  rw [rowChildren_length]
  decide

/-- C7, amended. Every row the tree builder produces for a JSON value, at any
depth, is the row built for some key and a JSON value v that occurs in that
value (its underlying value), and it has at least one child if and only if v
is an Object with at least one key or an Array with at least one element. -/
theorem children_iff_nonempty_container (pf : Platform) (key : QString) (value : QJsonValue)
    (sortObjectKeys : Bool) (row : List QStandardItem)
    (hrow : row ∈ (addJsonToParent pf (QStandardItem.mk "" []) key value sortObjectKeys).allRows) :
    ∃ (k : QString) (v : QJsonValue), OccursIn v value ∧ row = rowFor pf k v sortObjectKeys
      ∧ (0 < (rowChildren row).length ↔ isNonEmptyContainer v = true) := by
  have hex : ∃ (k : QString) (v : QJsonValue),
      OccursIn v value ∧ row = rowFor pf k v sortObjectKeys := by
    rw [addJsonToParent_appendRow] at hrow
    simp only [QStandardItem.appendRow, QStandardItem.allRows, QStandardItem.rows,
      List.nil_append, mem_allRowsOfRows, List.mem_singleton, exists_eq_left] at hrow
    rcases hrow with hrow | hrow
    · exact ⟨_, _, OccursIn.self _, hrow⟩
    · exact rows_below_rowFor pf sortObjectKeys (sizeOf value) value key (Nat.le_refl _) row hrow
  obtain ⟨k, v, hv, rfl⟩ := hex
  refine ⟨k, v, hv, rfl, ?_⟩
  rw [rowChildren_length]
  cases v <;> simp [isNonEmptyContainer]

/-- The amended C7 at the row of the first element of `[[], 7]`, one level
below the top row. -/
theorem children_iff_nonempty_container_witness :
    ∃ (k : QString) (v : QJsonValue),
      OccursIn v (QJsonValue.Array [QJsonValue.Array [], QJsonValue.Double 7])
      ∧ rowFor examplePlatform "[0]" (QJsonValue.Array []) true = rowFor examplePlatform k v true
      ∧ (0 < (rowChildren (rowFor examplePlatform "[0]" (QJsonValue.Array []) true)).length
          ↔ isNonEmptyContainer v = true) :=
  children_iff_nonempty_container examplePlatform "$"
    (QJsonValue.Array [QJsonValue.Array [], QJsonValue.Double 7]) true
    (rowFor examplePlatform "[0]" (QJsonValue.Array []) true)
    (by
      rw [addJsonToParent_appendRow]
      simp only [QStandardItem.appendRow, QStandardItem.allRows, QStandardItem.rows,
        List.nil_append, mem_allRowsOfRows, List.mem_singleton, exists_eq_left]
      right
      rw [rowFor_array, allRowsOfRow_pair, mem_allRowsOfRows]
      refine ⟨_, ?_, Or.inl rfl⟩
      simp only [List.mem_map, List.mem_range]
      exact ⟨0, by decide, by
        have h0 : QString.number 0 = "0" := by decide
        simp [QJsonArray.at, h0]⟩)

/-! ## The top-level node (C6) -/

/-- C6. For every JSON document passed to `buildJsonTreeModel` (both calls
follow a parse without error, whose document is an object or an array),
either parent and either value of sortObjectKeys, the returned model has
exactly one top-level row, and it is the row built for the label "$" and the
top-level value of the document, so it is labelled "$". -/
theorem buildJsonTreeModel_root (pf : Platform) (parent sortObjectKeys : Bool) :
    (∀ obj : QJsonObject,
      (buildJsonTreeModel pf (QJsonDocument.Object obj) parent sortObjectKeys).invisibleRootItem.rows
          = [rowFor pf "$" (QJsonValue.Object obj) sortObjectKeys]
      ∧ (buildJsonTreeModel pf (QJsonDocument.Object obj) parent
          sortObjectKeys).invisibleRootItem.rowCount = 1
      ∧ rowLabel (rowFor pf "$" (QJsonValue.Object obj) sortObjectKeys) = "$")
    ∧ (∀ arr : QJsonArray,
      (buildJsonTreeModel pf (QJsonDocument.Array arr) parent sortObjectKeys).invisibleRootItem.rows
          = [rowFor pf "$" (QJsonValue.Array arr) sortObjectKeys]
      ∧ (buildJsonTreeModel pf (QJsonDocument.Array arr) parent
          sortObjectKeys).invisibleRootItem.rowCount = 1
      ∧ rowLabel (rowFor pf "$" (QJsonValue.Array arr) sortObjectKeys) = "$") := by
  have hobj : ∀ obj : QJsonObject,
      (buildJsonTreeModel pf (QJsonDocument.Object obj) parent sortObjectKeys).invisibleRootItem.rows
        = [rowFor pf "$" (QJsonValue.Object obj) sortObjectKeys] := by
    intro obj
    simp [buildJsonTreeModel, QJsonDocument.isObject, QJsonDocument.object,
      addJsonToParent_appendRow, QStandardItem.appendRow, QStandardItem.rows]
  have harr : ∀ arr : QJsonArray,
      (buildJsonTreeModel pf (QJsonDocument.Array arr) parent sortObjectKeys).invisibleRootItem.rows
        = [rowFor pf "$" (QJsonValue.Array arr) sortObjectKeys] := by
    intro arr
    simp [buildJsonTreeModel, QJsonDocument.isObject, QJsonDocument.isArray,
      QJsonDocument.array, addJsonToParent_appendRow, QStandardItem.appendRow,
      QStandardItem.rows]
  refine ⟨fun obj => ⟨hobj obj, ?_, rowLabel_rowFor _ _ _ _⟩,
    fun arr => ⟨harr arr, ?_, rowLabel_rowFor _ _ _ _⟩⟩
  · simp [QStandardItem.rowCount, hobj]
  · simp [QStandardItem.rowCount, harr]

/-- The fall-through of `buildJsonTreeModel`: a null document, which neither
call passes, leaves the model without a top-level row. -/
theorem buildJsonTreeModel_null (pf : Platform) (parent sortObjectKeys : Bool) :
    (buildJsonTreeModel pf QJsonDocument.Null parent sortObjectKeys).invisibleRootItem.rows
      = [] := by
  simp [buildJsonTreeModel, QJsonDocument.isObject, QJsonDocument.isArray, QStandardItem.rows]

/-! ## Objects without sorting (C8) -/

theorem QString.compare_trans_lt (fold : Char → Nat) (a b c : List Char)
    (hab : QString.compare fold a b < 0) (hbc : QString.compare fold b c < 0) :
    QString.compare fold a c < 0 := by
  induction a generalizing b c with
  | nil =>
    cases c with
    | nil => cases b <;> simp [QString.compare] at hab hbc
    | cons z zs => simp [QString.compare]
  | cons x xs ih =>
    cases b with
    | nil => simp [QString.compare] at hab
    | cons y ys =>
      cases c with
      | nil => simp [QString.compare] at hbc
      | cons z zs =>
        simp only [QString.compare] at hab hbc ⊢
        by_cases h1 : (fold x : Int) - (fold y : Int) = 0
        · by_cases h2 : (fold y : Int) - (fold z : Int) = 0
          · have h3 : (fold x : Int) - (fold z : Int) = 0 := by omega
            simp only [h1, h2, h3, ne_eq, not_true_eq_false, if_false] at hab hbc ⊢
            exact ih ys zs hab hbc
          · have h3 : ¬ ((fold x : Int) - (fold z : Int) = 0) := by omega
            simp only [h2, h3, ne_eq, not_false_eq_true, if_true] at hbc ⊢
            omega
        · simp only [h1, ne_eq, not_false_eq_true, if_true] at hab
          by_cases h2 : (fold y : Int) - (fold z : Int) = 0
          · have h3 : ¬ ((fold x : Int) - (fold z : Int) = 0) := by omega
            simp only [h3, ne_eq, not_false_eq_true, if_true]
            omega
          · simp only [h2, ne_eq, not_false_eq_true, if_true] at hbc
            have h3 : ¬ ((fold x : Int) - (fold z : Int) = 0) := by omega
            simp only [h3, ne_eq, not_false_eq_true, if_true]
            omega

theorem QString.compare_eq_zero (a b : List Char)
    (h : QString.compare Char.toNat a b = 0) : a = b := by
  induction a generalizing b with
  | nil => cases b <;> simp [QString.compare] at h ⊢
  | cons x xs ih =>
    cases b with
    | nil => simp [QString.compare] at h
    | cons y ys =>
      simp only [QString.compare] at h
      by_cases h1 : (x.toNat : Int) - (y.toNat : Int) = 0
      · simp only [h1, ne_eq, not_true_eq_false, if_false] at h
        have hn : x.toNat = y.toNat := by omega
        have hxy : x = y := by
          have := congrArg Char.ofNat hn
          simpa using this
        rw [hxy, ih ys h]
      · simp only [h1, ne_eq, not_false_eq_true, if_true] at h

theorem QString.lessThan_trans (a b c : QString)
    (hab : QString.lessThan a b = true) (hbc : QString.lessThan b c = true) :
    QString.lessThan a c = true := by
  simp only [QString.lessThan, decide_eq_true_eq] at hab hbc ⊢
  exact QString.compare_trans_lt _ _ _ _ hab hbc

theorem QString.eq_of_not_lessThan (a b : QString)
    (hab : QString.lessThan a b = false) (hba : QString.lessThan b a = false) : a = b := by
  simp only [QString.lessThan, decide_eq_false_iff_not, not_lt] at hab hba
  rw [QString.compare_swap] at hba
  have h0 : QString.compare Char.toNat a.data b.data = 0 := by omega
  exact String.ext (QString.compare_eq_zero _ _ h0)

theorem QJsonObject.mem_keys_insert (obj : QJsonObject) (key : QString) (value : QJsonValue)
    (k : QString) :
    k ∈ QJsonObject.keys (QJsonObject.insert obj key value)
      ↔ k = key ∨ k ∈ QJsonObject.keys obj := by
  induction obj with
  | nil => simp [QJsonObject.insert, QJsonObject.keys]
  | cons m rest ih =>
    obtain ⟨k0, v0⟩ := m
    simp only [QJsonObject.keys] at ih
    simp only [QJsonObject.insert, QJsonObject.keys]
    cases h1 : QString.lessThan key k0
    · cases h2 : QString.lessThan k0 key
      · have heq : key = k0 := QString.eq_of_not_lessThan key k0 h1 h2
        simp only [Bool.false_eq_true, if_false, List.map_cons, List.mem_cons, heq]
        tauto
      · simp only [Bool.false_eq_true, if_false, if_true, List.map_cons, List.mem_cons, ih]
        tauto
    · simp only [if_true, List.map_cons, List.mem_cons]

theorem QJsonObject.keys_insert_sorted (obj : QJsonObject) (key : QString) (value : QJsonValue)
    (h : (QJsonObject.keys obj).Pairwise (fun a b => QString.lessThan a b = true)) :
    (QJsonObject.keys (QJsonObject.insert obj key value)).Pairwise
      (fun a b => QString.lessThan a b = true) := by
  induction obj with
  | nil => simp [QJsonObject.insert, QJsonObject.keys]
  | cons m rest ih =>
    obtain ⟨k0, v0⟩ := m
    simp only [QJsonObject.keys, List.map_cons, List.pairwise_cons] at h
    obtain ⟨hk0, hrest⟩ := h
    have ih2 := ih hrest
    have hmem := QJsonObject.mem_keys_insert rest key value
    simp only [QJsonObject.keys] at ih2 hmem
    simp only [QJsonObject.insert, QJsonObject.keys]
    cases h1 : QString.lessThan key k0
    · cases h2 : QString.lessThan k0 key
      · have heq : key = k0 := QString.eq_of_not_lessThan key k0 h1 h2
        simp only [Bool.false_eq_true, if_false, List.map_cons, List.pairwise_cons, heq]
        exact ⟨hk0, hrest⟩
      · simp only [Bool.false_eq_true, if_false, if_true, List.map_cons, List.pairwise_cons]
        refine ⟨?_, ih2⟩
        intro b hb
        rcases (hmem b).1 hb with hb2 | hb2
        · rw [hb2]; exact h2
        · exact hk0 b hb2
    · simp only [if_true, List.map_cons, List.pairwise_cons, List.mem_cons]
      refine ⟨?_, hk0, hrest⟩
      intro b hb
      rcases hb with hb | hb
      · rw [hb]; exact h1
      · exact QString.lessThan_trans _ _ _ h1 (hk0 b hb)

theorem QJsonObject.fromMembers_keys (members : List (QString × QJsonValue)) :
    (QJsonObject.keys (QJsonObject.fromMembers members)).Pairwise
        (fun a b => QString.lessThan a b = true)
    ∧ ∀ k, k ∈ QJsonObject.keys (QJsonObject.fromMembers members) ↔ k ∈ members.map Prod.fst := by
  have hgen : ∀ (ms : List (QString × QJsonValue)) (obj : QJsonObject),
      (QJsonObject.keys obj).Pairwise (fun a b => QString.lessThan a b = true) →
      (QJsonObject.keys (ms.foldl (fun o m => QJsonObject.insert o m.1 m.2) obj)).Pairwise
          (fun a b => QString.lessThan a b = true)
      ∧ ∀ k, k ∈ QJsonObject.keys (ms.foldl (fun o m => QJsonObject.insert o m.1 m.2) obj)
          ↔ k ∈ QJsonObject.keys obj ∨ k ∈ ms.map Prod.fst := by
    intro ms
    induction ms with
    | nil => intro obj h; simp [h]
    | cons m rest ih =>
      intro obj h
      obtain ⟨h1, h2⟩ := ih (QJsonObject.insert obj m.1 m.2)
        (QJsonObject.keys_insert_sorted obj m.1 m.2 h)
      refine ⟨h1, ?_⟩
      intro k
      simp only [List.foldl_cons, h2, QJsonObject.mem_keys_insert, List.map_cons, List.mem_cons]
      tauto
  have h := hgen members [] (by simp [QJsonObject.keys])
  refine ⟨h.1, ?_⟩
  intro k
  have := h.2 k
  simpa [QJsonObject.fromMembers, QJsonObject.keys] using this

/-- C8, as stated, fails: the members of `{"b":1,"A":2,"c":3}` appear in the
text in the order b, A, c, and the node built with sortObjectKeys = false has
the child labels A, b, c. -/
theorem object_children_unsorted_counterexample :
    (rowChildren (rowFor examplePlatform "$"
        (QJsonValue.Object (QJsonObject.fromMembers exampleMembers)) false)).map rowLabel
      = ["A", "b", "c"]
    ∧ (rowChildren (rowFor examplePlatform "$"
        (QJsonValue.Object (QJsonObject.fromMembers exampleMembers)) false)).map rowLabel
      ≠ exampleMembers.map Prod.fst := by
  simp only [rowFor_object, rowChildren, QStandardItem.rows, List.headD_cons,
    List.map_map, Function.comp_def, rowLabel_rowFor, List.map_id_fun, id]
  decide

/-- C8, amended. For every JSON object read from a text, whatever the order
of its members in the text, the node built with sortObjectKeys = false has
children whose labels, in order, are the keys as `QJsonObject::keys()` returns
them: every key of the text, once, in strictly ascending case-sensitive
order. -/
theorem object_children_unsorted (pf : Platform) (key : QString)
    (members : List (QString × QJsonValue)) :
    (rowChildren (rowFor pf key
        (QJsonValue.Object (QJsonObject.fromMembers members)) false)).map rowLabel
      = QJsonObject.keys (QJsonObject.fromMembers members)
    ∧ ((rowChildren (rowFor pf key
        (QJsonValue.Object (QJsonObject.fromMembers members)) false)).map rowLabel).Pairwise
        (fun a b => QString.lessThan a b = true)
    ∧ ∀ k, k ∈ (rowChildren (rowFor pf key
        (QJsonValue.Object (QJsonObject.fromMembers members)) false)).map rowLabel
        ↔ k ∈ members.map Prod.fst := by
  have hlabels : (rowChildren (rowFor pf key
        (QJsonValue.Object (QJsonObject.fromMembers members)) false)).map rowLabel
      = QJsonObject.keys (QJsonObject.fromMembers members) := by
    simp [rowFor_object, rowChildren, QStandardItem.rows, List.map_map, Function.comp_def,
      rowLabel_rowFor]
  rw [hlabels]
  exact ⟨rfl, QJsonObject.fromMembers_keys members⟩

/-! ## The loader: setters -/

@[simp] theorem FileReader.setLoading_m_loading (this : FileReader) (v : Bool) :
    (this.setLoading v).m_loading = v := by
  unfold FileReader.setLoading; split <;> simp_all

@[simp] theorem FileReader.setLoading_m_jsonModel (this : FileReader) (v : Bool) :
    (this.setLoading v).m_jsonModel = this.m_jsonModel := by
  unfold FileReader.setLoading; split <;> rfl

@[simp] theorem FileReader.setLoading_m_statusText (this : FileReader) (v : Bool) :
    (this.setLoading v).m_statusText = this.m_statusText := by
  unfold FileReader.setLoading; split <;> rfl

@[simp] theorem FileReader.setLoading_m_loadInProgress (this : FileReader) (v : Bool) :
    (this.setLoading v).m_loadInProgress = this.m_loadInProgress := by
  unfold FileReader.setLoading; split <;> rfl

@[simp] theorem FileReader.setLoading_deleted (this : FileReader) (v : Bool) :
    (this.setLoading v).deleted = this.deleted := by
  unfold FileReader.setLoading; split <;> rfl

@[simp] theorem FileReader.setStatusText_m_statusText (this : FileReader) (t : QString) :
    (this.setStatusText t).m_statusText = t := by
  unfold FileReader.setStatusText; split <;> simp_all

@[simp] theorem FileReader.setStatusText_m_jsonModel (this : FileReader) (t : QString) :
    (this.setStatusText t).m_jsonModel = this.m_jsonModel := by
  unfold FileReader.setStatusText; split <;> rfl

@[simp] theorem FileReader.setStatusText_m_loading (this : FileReader) (t : QString) :
    (this.setStatusText t).m_loading = this.m_loading := by
  unfold FileReader.setStatusText; split <;> rfl

@[simp] theorem FileReader.setStatusText_m_loadInProgress (this : FileReader) (t : QString) :
    (this.setStatusText t).m_loadInProgress = this.m_loadInProgress := by
  unfold FileReader.setStatusText; split <;> rfl

@[simp] theorem FileReader.setStatusText_deleted (this : FileReader) (t : QString) :
    (this.setStatusText t).deleted = this.deleted := by
  unfold FileReader.setStatusText; split <;> rfl

/-! ## A second request during a load (C2) -/

/-- C2. For every loader with a load in progress and every local file URL,
`readJsonFileAsync` is rejected: the model (and the list of models to delete),
the loading flag and the load-in-progress flag are unchanged, no task is handed
to the thread pool, and the status text is "Load already in progress...". -/
theorem readJsonFileAsync_rejected (this : FileReader) (url : QUrl)
    (hlocal : url.isLocalFile = true) (hbusy : this.m_loadInProgress = true) :
    (this.readJsonFileAsync url).1.m_jsonModel = this.m_jsonModel
    ∧ (this.readJsonFileAsync url).1.deleted = this.deleted
    ∧ (this.readJsonFileAsync url).1.m_loading = this.m_loading
    ∧ (this.readJsonFileAsync url).1.m_loadInProgress = true
    ∧ (this.readJsonFileAsync url).2 = none
    ∧ (this.readJsonFileAsync url).1.m_statusText = "Load already in progress..." := by
  simp [FileReader.readJsonFileAsync, hlocal, hbusy]

/-- C2 at a second request for `file:///doc.json` on a loader that is
loading. -/
theorem readJsonFileAsync_rejected_witness :
    (loadingReader.readJsonFileAsync ⟨"file", "/doc.json"⟩).1.m_jsonModel
        = loadingReader.m_jsonModel
    ∧ (loadingReader.readJsonFileAsync ⟨"file", "/doc.json"⟩).1.deleted = loadingReader.deleted
    ∧ (loadingReader.readJsonFileAsync ⟨"file", "/doc.json"⟩).1.m_loading
        = loadingReader.m_loading
    ∧ (loadingReader.readJsonFileAsync ⟨"file", "/doc.json"⟩).1.m_loadInProgress = true
    ∧ (loadingReader.readJsonFileAsync ⟨"file", "/doc.json"⟩).2 = none
    ∧ (loadingReader.readJsonFileAsync ⟨"file", "/doc.json"⟩).1.m_statusText
        = "Load already in progress..." :=
  readJsonFileAsync_rejected loadingReader ⟨"file", "/doc.json"⟩ (by decide) (by decide)

/-! ## Failed loads (C3) -/

/-- C3. On a loader that is alive, a failed load leaves the model as it was
(and hands no model to `deleteLater`) and ends with loading = false: for
`readJsonFile` on a local URL whose file cannot be opened the status text is
"Failed to open file", for `readJsonFile` on a local URL whose bytes do not
parse it is "JSON parse error", and for the `finished` handler with a result
that is not ok it is "Async load failed: " followed by the error of the
result, and the load-in-progress flag is false. -/
theorem failed_load_keeps_model (pf : Platform) (this : FileReader) :
    (∀ url : QUrl, url.isLocalFile = true → pf.readFile url.toLocalFile = none →
      (this.readJsonFile pf url).m_jsonModel = this.m_jsonModel
      ∧ (this.readJsonFile pf url).deleted = this.deleted
      ∧ (this.readJsonFile pf url).m_loading = false
      ∧ (this.readJsonFile pf url).m_statusText = "Failed to open file")
    ∧ (∀ (url : QUrl) (data : List Nat), url.isLocalFile = true →
      pf.readFile url.toLocalFile = some data →
      (pf.fromJson data).2.error ≠ QJsonParseError.NoError →
      (this.readJsonFile pf url).m_jsonModel = this.m_jsonModel
      ∧ (this.readJsonFile pf url).deleted = this.deleted
      ∧ (this.readJsonFile pf url).m_loading = false
      ∧ (this.readJsonFile pf url).m_statusText = "JSON parse error")
    ∧ (∀ r : JsonLoadResult, r.ok = false →
      ∃ after : FileReader, finished (some this) r = some after
        ∧ after.m_jsonModel = this.m_jsonModel
        ∧ after.deleted = this.deleted
        ∧ after.m_loading = false
        ∧ after.m_loadInProgress = false
        ∧ after.m_statusText = "Async load failed: " ++ r.error) := by
  refine ⟨?_, ?_, ?_⟩
  · intro url hlocal hopen
    simp [FileReader.readJsonFile, hlocal, hopen]
  · intro url data hlocal hopen hparse
    simp [FileReader.readJsonFile, hlocal, hopen, hparse]
  · intro r hok
    simp [finished, hok]

/-- C3 on a loader that shows a tree: a
synchronous load of a file that does not exist, one of a file that does not
parse, and the end of an asynchronous load that failed. -/
theorem failed_load_keeps_model_witness :
    ((idleReader.readJsonFile examplePlatform ⟨"file", "/none.json"⟩).m_jsonModel
        = idleReader.m_jsonModel
      ∧ (idleReader.readJsonFile examplePlatform ⟨"file", "/none.json"⟩).deleted
        = idleReader.deleted
      ∧ (idleReader.readJsonFile examplePlatform ⟨"file", "/none.json"⟩).m_loading = false
      ∧ (idleReader.readJsonFile examplePlatform ⟨"file", "/none.json"⟩).m_statusText
        = "Failed to open file")
    ∧ ((idleReader.readJsonFile examplePlatform ⟨"file", "/bad.json"⟩).m_jsonModel
        = idleReader.m_jsonModel
      ∧ (idleReader.readJsonFile examplePlatform ⟨"file", "/bad.json"⟩).deleted
        = idleReader.deleted
      ∧ (idleReader.readJsonFile examplePlatform ⟨"file", "/bad.json"⟩).m_loading = false
      ∧ (idleReader.readJsonFile examplePlatform ⟨"file", "/bad.json"⟩).m_statusText
        = "JSON parse error")
    ∧ (∃ after : FileReader, finished (some idleReader) failedResult = some after
        ∧ after.m_jsonModel = idleReader.m_jsonModel
        ∧ after.deleted = idleReader.deleted
        ∧ after.m_loading = false
        ∧ after.m_loadInProgress = false
        ∧ after.m_statusText = "Async load failed: " ++ failedResult.error) :=
  ⟨(failed_load_keeps_model examplePlatform idleReader).1 ⟨"file", "/none.json"⟩
      (by decide) (by decide),
   (failed_load_keeps_model examplePlatform idleReader).2.1 ⟨"file", "/bad.json"⟩ [123]
      (by decide) (by decide) (by decide),
   (failed_load_keeps_model examplePlatform idleReader).2.2 failedResult rfl⟩

/-! ## URLs that cannot be loaded (C9) -/

/-- C9, as stated, fails. With a non-local URL `readJsonFile` and
`readJsonFileAsync` report nothing: the status text stays what it was (here
"Done in 3 ms", not an open-error status), no task is started, and a loader
that was loading stays loading. And with a load in progress
`readJsonFileAsync` answers a local URL whose file cannot be opened with
"Load already in progress...", loading still true. -/
theorem unloadable_url_counterexample :
    (idleReader.readJsonFile examplePlatform ⟨"http", "/none.json"⟩).m_statusText
        = "Done in 3 ms"
    ∧ (idleReader.readJsonFileAsync ⟨"http", "/none.json"⟩).1.m_statusText = "Done in 3 ms"
    ∧ (idleReader.readJsonFileAsync ⟨"http", "/none.json"⟩).2 = none
    ∧ (loadingReader.readJsonFile examplePlatform ⟨"http", "/none.json"⟩).m_loading = true
    ∧ examplePlatform.readFile (QUrl.toLocalFile ⟨"file", "/none.json"⟩) = none
    ∧ (loadingReader.readJsonFileAsync ⟨"file", "/none.json"⟩).1.m_statusText
        = "Load already in progress..."
    ∧ (loadingReader.readJsonFileAsync ⟨"file", "/none.json"⟩).1.m_loading = true := by
  refine ⟨by decide, by decide, rfl, by decide, by decide, by decide, by decide⟩

/-- C9, amended. With a non-local URL `readJsonFile` and `readJsonFileAsync`
return at once and change nothing. With a local URL whose file cannot be
opened, `readJsonFile` ends with the status text "Failed to open file",
loading = false and the model unchanged; and `readJsonFileAsync`, when no load
is in progress, ends (after the worker and the `finished` handler, on a loader
that is alive) with the status text "Async load failed: Failed to open file",
loading = false, no load in progress and the model unchanged. -/
theorem unloadable_url (pf : Platform) (this : FileReader) (url : QUrl) :
    (url.isLocalFile = false →
      this.readJsonFile pf url = this ∧ this.readJsonFileAsync url = (this, none))
    ∧ (url.isLocalFile = true → pf.readFile url.toLocalFile = none →
      (this.readJsonFile pf url).m_jsonModel = this.m_jsonModel
      ∧ (this.readJsonFile pf url).deleted = this.deleted
      ∧ (this.readJsonFile pf url).m_loading = false
      ∧ (this.readJsonFile pf url).m_statusText = "Failed to open file")
    ∧ (url.isLocalFile = true → pf.readFile url.toLocalFile = none →
      this.m_loadInProgress = false →
      ∃ after : FileReader, this.readJsonFileAsyncToEnd pf url = some after
        ∧ after.m_jsonModel = this.m_jsonModel
        ∧ after.deleted = this.deleted
        ∧ after.m_loading = false
        ∧ after.m_loadInProgress = false
        ∧ after.m_statusText = "Async load failed: Failed to open file") := by
  refine ⟨?_, ?_, ?_⟩
  · intro hlocal
    simp [FileReader.readJsonFile, FileReader.readJsonFileAsync, hlocal]
  · intro hlocal hopen
    simp [FileReader.readJsonFile, hlocal, hopen]
  · intro hlocal hopen hidle
    have hworker : worker pf { path := url.toLocalFile, sortKeys := true } true
        = { ok := false, error := "Failed to open file", model := none,
            openMs := 0, readMs := 0, parseMs := 0, buildMs := 0, totalMs := 0 } := by
      simp [worker, hopen]
    simp only [FileReader.readJsonFileAsyncToEnd, FileReader.readJsonFileAsync, hlocal, hidle,
      Bool.not_true, Bool.false_eq_true, if_false, hworker, finished]
    simp

/-- The amended C9 at an `http` URL on a loader that is loading, and at
the local URL of a file that does not exist on a loader at rest. -/
theorem unloadable_url_witness :
    (loadingReader.readJsonFile examplePlatform ⟨"http", "/doc.json"⟩ = loadingReader
      ∧ loadingReader.readJsonFileAsync ⟨"http", "/doc.json"⟩ = (loadingReader, none))
    ∧ ((idleReader.readJsonFile examplePlatform ⟨"file", "/none.json"⟩).m_jsonModel
        = idleReader.m_jsonModel
      ∧ (idleReader.readJsonFile examplePlatform ⟨"file", "/none.json"⟩).deleted
        = idleReader.deleted
      ∧ (idleReader.readJsonFile examplePlatform ⟨"file", "/none.json"⟩).m_loading = false
      ∧ (idleReader.readJsonFile examplePlatform ⟨"file", "/none.json"⟩).m_statusText
        = "Failed to open file")
    ∧ (∃ after : FileReader,
        idleReader.readJsonFileAsyncToEnd examplePlatform ⟨"file", "/none.json"⟩ = some after
        ∧ after.m_jsonModel = idleReader.m_jsonModel
        ∧ after.deleted = idleReader.deleted
        ∧ after.m_loading = false
        ∧ after.m_loadInProgress = false
        ∧ after.m_statusText = "Async load failed: Failed to open file") :=
  ⟨(unloadable_url examplePlatform loadingReader ⟨"http", "/doc.json"⟩).1 (by decide),
   (unloadable_url examplePlatform idleReader ⟨"file", "/none.json"⟩).2.1
      (by decide) (by decide),
   (unloadable_url examplePlatform idleReader ⟨"file", "/none.json"⟩).2.2
      (by decide) (by decide) (by decide)⟩

/-! ## The result of the worker (C10) -/

theorem QString.append_ne_empty (a b : QString) (h : a ≠ "") : a ++ b ≠ "" := by
  intro hab
  have hdata := congrArg String.data hab
  simp only [String.data_append] at hdata
  have ha : a.data = [] := (List.append_eq_nil.1 hdata).1
  exact h (String.ext ha)

/-- C10. For every outcome of the stages of the worker (the file opens or
not, its bytes parse or not, the loader is alive or not when tested after the
parse): ok is true exactly when the file opens, the bytes parse and the loader
is alive; then the model is the one built from the parsed document and the
error is empty; when ok is false there is no model and the error is not
empty, and it is that of the first stage that failed: "Failed to open file",
else "JSON parse error: " with the error string of the parser, else
"Loader object destroyed". -/
theorem worker_result (pf : Platform) (task : WorkerTask) (self : Bool) :
    ((worker pf task self).ok = true ↔
      (∃ data, pf.readFile task.path = some data
        ∧ (pf.fromJson data).2.error = QJsonParseError.NoError) ∧ self = true)
    ∧ (∀ data, pf.readFile task.path = some data →
        (pf.fromJson data).2.error = QJsonParseError.NoError → self = true →
        (worker pf task self).ok = true
        ∧ (worker pf task self).model
            = some (buildJsonTreeModel pf (pf.fromJson data).1 false task.sortKeys)
        ∧ (worker pf task self).error = "")
    ∧ ((worker pf task self).ok = false →
        (worker pf task self).model = none ∧ (worker pf task self).error ≠ "")
    ∧ (pf.readFile task.path = none →
        (worker pf task self).ok = false
        ∧ (worker pf task self).error = "Failed to open file")
    ∧ (∀ data, pf.readFile task.path = some data →
        (pf.fromJson data).2.error ≠ QJsonParseError.NoError →
        (worker pf task self).ok = false
        ∧ (worker pf task self).error
            = "JSON parse error: " ++ pf.errorString (pf.fromJson data).2.error)
    ∧ (∀ data, pf.readFile task.path = some data →
        (pf.fromJson data).2.error = QJsonParseError.NoError → self = false →
        (worker pf task self).ok = false
        ∧ (worker pf task self).error = "Loader object destroyed") := by
  cases hopen : pf.readFile task.path with
  | none =>
    simp [worker, hopen]
  | some data =>
    by_cases hparse : (pf.fromJson data).2.error = QJsonParseError.NoError
    · cases self
      · simp [worker, hopen, hparse]
      · simp [worker, hopen, hparse]
    · have hne : "JSON parse error: " ++ pf.errorString (pf.fromJson data).2.error ≠ "" :=
        QString.append_ne_empty _ _ (by decide)
      simp [worker, hopen, hparse, hne]

/-- C10 on the example platform: `/doc.json` opens and
parses, so with a live loader the result is ok, with a model and no error;
`/bad.json` opens and does not parse; `/none.json` does not open; and with the
loader gone after the parse of `/doc.json` the result is not ok. -/
theorem worker_result_witness :
    ((worker examplePlatform ⟨"/doc.json", true⟩ true).ok = true
      ∧ (worker examplePlatform ⟨"/doc.json", true⟩ true).model
          = some (buildJsonTreeModel examplePlatform (examplePlatform.fromJson []).1 false true)
      ∧ (worker examplePlatform ⟨"/doc.json", true⟩ true).error = "")
    ∧ ((worker examplePlatform ⟨"/bad.json", true⟩ true).ok = false
      ∧ (worker examplePlatform ⟨"/bad.json", true⟩ true).error
          = "JSON parse error: "
              ++ examplePlatform.errorString (examplePlatform.fromJson [123]).2.error)
    ∧ ((worker examplePlatform ⟨"/none.json", true⟩ true).ok = false
      ∧ (worker examplePlatform ⟨"/none.json", true⟩ true).error = "Failed to open file")
    ∧ ((worker examplePlatform ⟨"/doc.json", true⟩ false).ok = false
      ∧ (worker examplePlatform ⟨"/doc.json", true⟩ false).error = "Loader object destroyed")
    ∧ ((worker examplePlatform ⟨"/none.json", true⟩ true).model = none
      ∧ (worker examplePlatform ⟨"/none.json", true⟩ true).error ≠ "") :=
  ⟨(worker_result examplePlatform ⟨"/doc.json", true⟩ true).2.1 [] (by decide) (by decide) rfl,
   (worker_result examplePlatform ⟨"/bad.json", true⟩ true).2.2.2.2.1 [123]
      (by decide) (by decide),
   (worker_result examplePlatform ⟨"/none.json", true⟩ true).2.2.2.1 (by decide),
   (worker_result examplePlatform ⟨"/doc.json", true⟩ false).2.2.2.2.2 []
      (by decide) (by decide) rfl,
   (worker_result examplePlatform ⟨"/none.json", true⟩ true).2.2.1 (by decide)⟩

end QtJsonViewer
